import Mathlib

/-!
Verification of the hipack encoding engine (ser.rs / error.rs).

The development shallowly embeds the serializer: the output sink is a list of
bytes (natural numbers), the two formatter strategies are one function family
indexed by a mode, and the serializer state carries the indentation depth of
the pretty formatter together with the shared first-item flag.  The state also
carries instrumentation counters that record how many container-open and
container-close punctuation bytes were written and how many times the
formatter begin/end hooks ran; the counters never influence the bytes that
are produced.
-/

namespace HiPack

/-- Error codes of the encoding direction, mirroring ErrorCode in error.rs. -/
inductive ErrorCode where
  | invalidKey
  | unrepresentableValue
deriving DecidableEq, Repr

/-- Errors produced by the serializer.  With an in-memory byte sink the io
variant of error.rs can never arise, and the utf8 variant is not used by
ser.rs, so only the syntax-error variant is reachable: a code together with
offset, line and column. -/
inductive Err where
  | syntaxError (code : ErrorCode) (offset : Nat) (line : Nat) (column : Nat)
deriving DecidableEq, Repr

/-- Offset field of an error. -/
def Err.offset : Err → Nat
  | .syntaxError _ o _ _ => o

/-- Line field of an error. -/
def Err.line : Err → Nat
  | .syntaxError _ _ l _ => l

/-- Column field of an error. -/
def Err.column : Err → Nat
  | .syntaxError _ _ _ c => c

/-- Code field of an error. -/
def Err.code : Err → ErrorCode
  | .syntaxError c _ _ _ => c

/-- The two formatter strategies of ser.rs. -/
inductive Mode where
  | compact
  | pretty
deriving DecidableEq, Repr

/-- Serializer state: the bytes written to the sink so far, the indentation
depth of the pretty formatter, the shared first-item flag of the serializer,
and four instrumentation counters: container-open and container-close
punctuation bytes written, and invocations of the formatter begin and end
hooks (start_compound / end_compound). -/
structure SerState where
  out : List Nat
  indent : Nat
  first : Bool
  opens : Nat
  closes : Nat
  hookStarts : Nat
  hookEnds : Nat
deriving DecidableEq, Repr

/-- Indentation text: the pretty formatter writes two spaces per level. -/
def indentBytes (n : Nat) : List Nat :=
  List.replicate (2 * n) 0x20

/-- Formatter start_compound: compact writes the opening delimiter; pretty
increments the depth, writes the delimiter, a newline and the new
indentation. -/
def startCompound (m : Mode) (st : SerState) (ch : Nat) : SerState :=
  match m with
  | .compact =>
      { st with out := st.out ++ [ch],
                opens := st.opens + 1, hookStarts := st.hookStarts + 1 }
  | .pretty =>
      { st with indent := st.indent + 1,
                out := st.out ++ [ch, 0x0A] ++ indentBytes (st.indent + 1),
                opens := st.opens + 1, hookStarts := st.hookStarts + 1 }

/-- Formatter end_compound: compact writes the closing delimiter; pretty
decrements the depth, writes a newline, the new indentation and the
delimiter. -/
def endCompound (m : Mode) (st : SerState) (ch : Nat) : SerState :=
  match m with
  | .compact =>
      { st with out := st.out ++ [ch],
                closes := st.closes + 1, hookEnds := st.hookEnds + 1 }
  | .pretty =>
      { st with indent := st.indent - 1,
                out := st.out ++ [0x0A] ++ indentBytes (st.indent - 1) ++ [ch],
                closes := st.closes + 1, hookEnds := st.hookEnds + 1 }

/-- Formatter key_separator: a colon in compact mode, colon and space in
pretty mode. -/
def keySeparator (m : Mode) (st : SerState) : SerState :=
  match m with
  | .compact => { st with out := st.out ++ [0x3A] }
  | .pretty  => { st with out := st.out ++ [0x3A, 0x20] }

/-- Formatter item_separator: a no-op for the first item; afterwards compact
writes a comma and pretty writes a newline followed by the current
indentation. -/
def itemSeparator (m : Mode) (st : SerState) (first : Bool) : SerState :=
  if first then st
  else
    match m with
    | .compact => { st with out := st.out ++ [0x2C] }
    | .pretty  => { st with out := st.out ++ [0x0A] ++ indentBytes st.indent }

/-- Uppercase hexadecimal digit character for a value below sixteen, as the
X format of Rust renders one digit. -/
def hexDigitChar (n : Nat) : Nat :=
  if n < 10 then 0x30 + n else 0x37 + n

/-- Uppercase hexadecimal text of a byte, without padding, as the X format
of Rust renders an eight-bit value: one digit below sixteen, two digits
otherwise. -/
def hexUpperByte (n : Nat) : List Nat :=
  if n < 16 then [hexDigitChar n]
  else [hexDigitChar (n / 16), hexDigitChar (n % 16)]

/-- Escaping of one string byte, mirroring the match of visit_str byte by
byte: named escapes for tab, newline, carriage return, quote and backslash;
then a backslash, a zero and the hex text for bytes below 0xF; then a
backslash and the hex text for bytes below 0x20; all other bytes pass
through. -/
def escapeByte (ch : Nat) : List Nat :=
  if ch = 0x09 then [0x5C, 0x74]
  else if ch = 0x0A then [0x5C, 0x6E]
  else if ch = 0x0D then [0x5C, 0x72]
  else if ch = 0x22 then [0x5C, 0x22]
  else if ch = 0x5C then [0x5C, 0x5C]
  else if ch < 0xF then [0x5C, 0x30] ++ hexUpperByte ch
  else if ch < 0x20 then [0x5C] ++ hexUpperByte ch
  else [ch]

/-- Escaped text of a whole string, byte by byte. -/
def escapeBytes (s : List Nat) : List Nat :=
  (s.map escapeByte).flatten

/-- Bytes of the literal True. -/
def trueBytes : List Nat := [0x54, 0x72, 0x75, 0x65]

/-- Bytes of the literal False. -/
def falseBytes : List Nat := [0x46, 0x61, 0x6C, 0x73, 0x65]

/-- Decimal text of an unsigned integer. -/
def decimalNat (n : Nat) : List Nat :=
  (Nat.toDigits 10 n).map Char.toNat

/-- Decimal text of a signed integer, with a minus sign when negative. -/
def decimalInt (i : Int) : List Nat :=
  if i < 0 then 0x2D :: decimalNat i.natAbs else decimalNat i.natAbs

/-- Model of a sixty-four bit float as visit_f64 observes it: not a number,
an infinity with a sign, or a finite value abstracted by the byte text that
the default rendering of the language produces for it (the shortest
round-trippable decimal, which holds at most one dot). -/
inductive F64 where
  | nan
  | inf (neg : Bool)
  | finite (render : List Nat)
deriving DecidableEq, Repr

/-- Float rendering of visit_f64: NaN and the infinities keep the default
text; a finite value keeps its default text, with a dot and a zero appended
when the text holds no dot. -/
def renderF64 : F64 → List Nat
  | .nan => [0x4E, 0x61, 0x4E]
  | .inf false => [0x69, 0x6E, 0x66]
  | .inf true => [0x2D, 0x69, 0x6E, 0x66]
  | .finite s => if 0x2E ∈ s then s else s ++ [0x2E, 0x30]

/-- Values the serializer can be handed, covering every visit method of the
serde serializer trait that ser.rs implements: booleans, signed and unsigned
integers, floats, strings as byte lists, the absent value (unit and none),
the optional wrapper (some), sequences and mappings as ordered pair
lists. -/
inductive Value where
  | bool (b : Bool)
  | int (n : Int)
  | uint (n : Nat)
  | float (f : F64)
  | str (s : List Nat)
  | absent
  | opt (v : Value)
  | seq (vs : List Value)
  | map (kvs : List (Value × Value))

/-- String test on a value, deciding which arm of the key serializer runs. -/
def Value.isStr : Value → Bool
  | .str _ => true
  | _ => false

/-- Key serializer of ser.rs: a string key is written to the sink verbatim,
with no quotes and no escaping; every other kind of key, the optional
wrapper included, fails at once with the invalid-key error, leaving the sink
untouched.  The key serializer never consults the formatter, so it takes no
mode. -/
def serializeKey (v : Value) (st : SerState) : Except (SerState × Err) SerState :=
  match v with
  | .str s => .ok { st with out := st.out ++ s }
  | _ => .error (st, .syntaxError .invalidKey 0 0 0)

mutual

/-- The serializer of ser.rs.  Errors carry the state at the moment of
failure, modelling that bytes already written to the sink stay written. -/
def serialize (m : Mode) (v : Value) (st : SerState) : Except (SerState × Err) SerState :=
  match v with
  | .bool b => .ok { st with out := st.out ++ (if b then trueBytes else falseBytes) }
  | .int n => .ok { st with out := st.out ++ decimalInt n }
  | .uint n => .ok { st with out := st.out ++ decimalNat n }
  | .float f => .ok { st with out := st.out ++ renderF64 f }
  | .str s => .ok { st with out := st.out ++ [0x22] ++ escapeBytes s ++ [0x22] }
  | .absent => .error (st, .syntaxError .unrepresentableValue 0 0 0)
  | .opt w => serialize m w st
  | .seq [] => .ok { st with out := st.out ++ [0x5B, 0x5D],
                             opens := st.opens + 1, closes := st.closes + 1 }
  | .seq (v0 :: rest) =>
      match serializeSeqElts m (v0 :: rest) { startCompound m st 0x5B with first := true } with
      | .error e => .error e
      | .ok st2 => .ok (endCompound m st2 0x5D)
  | .map [] => .ok { st with out := st.out ++ [0x7B, 0x7D],
                             opens := st.opens + 1, closes := st.closes + 1 }
  | .map (kv0 :: rest) =>
      match serializeMapElts m (kv0 :: rest) { startCompound m st 0x7B with first := true } with
      | .error e => .error e
      | .ok st2 => .ok (endCompound m st2 0x7D)
termination_by sizeOf v

/-- Sequence elements, one visit_seq_elt per element: item separator driven
by the shared first flag, the element, then the flag drops to false. -/
def serializeSeqElts (m : Mode) (vs : List Value) (st : SerState) : Except (SerState × Err) SerState :=
  match vs with
  | [] => .ok st
  | v :: rest =>
      match serialize m v (itemSeparator m st st.first) with
      | .error e => .error e
      | .ok st2 => serializeSeqElts m rest { st2 with first := false }
termination_by sizeOf vs

/-- Mapping entries, one visit_map_elt per pair: item separator, the key
through the key serializer, the key separator, the value, then the first
flag drops to false. -/
def serializeMapElts (m : Mode) (kvs : List (Value × Value)) (st : SerState) : Except (SerState × Err) SerState :=
  match kvs with
  | [] => .ok st
  | (k, v) :: rest =>
      match serializeKey k (itemSeparator m st st.first) with
      | .error e => .error e
      | .ok st2 =>
          match serialize m v (keySeparator m st2) with
          | .error e => .error e
          | .ok st3 => serializeMapElts m rest { st3 with first := false }
termination_by sizeOf kvs

end

/-- Fresh serializer state: empty sink, zero depth, first flag down, all
counters at zero. -/
def initState : SerState :=
  { out := [], indent := 0, first := false,
    opens := 0, closes := 0, hookStarts := 0, hookEnds := 0 }

/-- The to_vec entry point: compact serialization into a fresh byte buffer,
dropping the buffer on error. -/
def toVec (v : Value) : Except Err (List Nat) :=
  match serialize .compact v initState with
  | .ok st => .ok st.out
  | .error e => .error e.2

/-- The to_vec_pretty entry point: pretty serialization into a fresh byte
buffer, dropping the buffer on error. -/
def toVecPretty (v : Value) : Except Err (List Nat) :=
  match serialize .pretty v initState with
  | .ok st => .ok st.out
  | .error e => .error e.2

mutual

/-- A value holds the absent value somewhere in value position: at the root,
under the optional wrapper, as a sequence element, or as a mapping entry
value.  Mapping keys are not value positions: a key is handed to the key
serializer, never to the value serializer. -/
def containsAbsentValue : Value → Bool
  | .absent => true
  | .opt v => containsAbsentValue v
  | .seq vs => containsAbsentList vs
  | .map kvs => containsAbsentKVs kvs
  | _ => false
termination_by v => sizeOf v

/-- Some element of the list holds the absent value in value position. -/
def containsAbsentList : List Value → Bool
  | [] => false
  | v :: rest => containsAbsentValue v || containsAbsentList rest
termination_by vs => sizeOf vs

/-- Some entry value of the list holds the absent value in value position. -/
def containsAbsentKVs : List (Value × Value) → Bool
  | [] => false
  | (_, v) :: rest => containsAbsentValue v || containsAbsentKVs rest
termination_by kvs => sizeOf kvs

end

mutual

/-- Every mapping key reachable in value position is a string. -/
def allStringKeys : Value → Bool
  | .opt v => allStringKeys v
  | .seq vs => allStringKeysList vs
  | .map kvs => allStringKeysKVs kvs
  | _ => true
termination_by v => sizeOf v

/-- Every mapping key reachable inside the list elements is a string. -/
def allStringKeysList : List Value → Bool
  | [] => true
  | v :: rest => allStringKeys v && allStringKeysList rest
termination_by vs => sizeOf vs

/-- Every key of the entries is a string, and every mapping key reachable
inside the entry values is a string. -/
def allStringKeysKVs : List (Value × Value) → Bool
  | [] => true
  | (k, v) :: rest => k.isStr && (allStringKeys v && allStringKeysKVs rest)
termination_by kvs => sizeOf kvs

end

/-- A failing key serialization leaves the state untouched and produces the
invalid-key error with zero offset, line and column. -/
theorem serializeKey_error_eq (k : Value) (st : SerState) (p : SerState × Err)
    (h : serializeKey k st = .error p) :
    p = (st, .syntaxError .invalidKey 0 0 0) := by
  cases k <;> simp [serializeKey] at h <;> simp [← h]

/-- A successful key serialization happens exactly on string keys and
appends the raw key bytes to the sink. -/
theorem serializeKey_ok_eq (k : Value) (st st2 : SerState)
    (h : serializeKey k st = .ok st2) :
    ∃ s, k = .str s ∧ st2 = { st with out := st.out ++ s } := by
  cases k <;> simp [serializeKey] at h
  exact ⟨_, rfl, h.symm⟩

/-- Counter bookkeeping of the formatter begin hook. -/
theorem startCompound_fields (m : Mode) (st : SerState) (ch : Nat) :
    (startCompound m st ch).opens = st.opens + 1 ∧
    (startCompound m st ch).closes = st.closes ∧
    (startCompound m st ch).hookStarts = st.hookStarts + 1 ∧
    (startCompound m st ch).hookEnds = st.hookEnds := by
  cases m <;> simp [startCompound]

/-- Counter bookkeeping of the formatter end hook. -/
theorem endCompound_fields (m : Mode) (st : SerState) (ch : Nat) :
    (endCompound m st ch).opens = st.opens ∧
    (endCompound m st ch).closes = st.closes + 1 ∧
    (endCompound m st ch).hookStarts = st.hookStarts ∧
    (endCompound m st ch).hookEnds = st.hookEnds + 1 := by
  cases m <;> simp [endCompound]

/-- The item separator never touches the counters. -/
theorem itemSeparator_fields (m : Mode) (st : SerState) (b : Bool) :
    (itemSeparator m st b).opens = st.opens ∧
    (itemSeparator m st b).closes = st.closes ∧
    (itemSeparator m st b).first = st.first := by
  cases b <;> cases m <;> simp [itemSeparator]

/-- The key separator never touches the counters. -/
theorem keySeparator_fields (m : Mode) (st : SerState) :
    (keySeparator m st).opens = st.opens ∧
    (keySeparator m st).closes = st.closes := by
  cases m <;> simp [keySeparator]

/-- Every error that any of the three serializer layers can produce carries
offset, line and column all zero. -/
theorem error_fields_aux (m : Mode) (v : Value) (st : SerState) :
    ∀ p : SerState × Err, serialize m v st = .error p →
      p.2.offset = 0 ∧ p.2.line = 0 ∧ p.2.column = 0 := by
  refine serialize.induct m
    (fun v st => ∀ p : SerState × Err, serialize m v st = .error p →
      p.2.offset = 0 ∧ p.2.line = 0 ∧ p.2.column = 0)
    (fun kvs st => ∀ p : SerState × Err, serializeMapElts m kvs st = .error p →
      p.2.offset = 0 ∧ p.2.line = 0 ∧ p.2.column = 0)
    (fun vs st => ∀ p : SerState × Err, serializeSeqElts m vs st = .error p →
      p.2.offset = 0 ∧ p.2.line = 0 ∧ p.2.column = 0)
    ?_ ?_ ?_ ?_ ?_ ?_ ?_ ?_ ?_ ?_ ?_ ?_ ?_ ?_ ?_ ?_ ?_ ?_ ?_ ?_ v st
  case _ => intro st b p hp; simp [serialize] at hp
  case _ => intro st n p hp; simp [serialize] at hp
  case _ => intro st n p hp; simp [serialize] at hp
  case _ => intro st f p hp; simp [serialize] at hp
  case _ => intro st s p hp; simp [serialize] at hp
  case _ =>
    intro st p hp
    simp [serialize] at hp
    simp [← hp, Err.offset, Err.line, Err.column]
  case _ => intro st w ih p hp; simp [serialize] at hp; exact ih p hp
  case _ => intro st p hp; simp [serialize] at hp
  case _ =>
    intro st v0 rest e he ih p hp
    simp [serialize, he] at hp
    exact hp ▸ ih e he
  case _ =>
    intro st v0 rest st2 hok ih p hp
    simp [serialize, hok] at hp
  case _ => intro st p hp; simp [serialize] at hp
  case _ =>
    intro st kv0 rest e he ih p hp
    simp [serialize, he] at hp
    exact hp ▸ ih e he
  case _ =>
    intro st kv0 rest st2 hok ih p hp
    simp [serialize, hok] at hp
  case _ => intro st p hp; simp [serializeMapElts] at hp
  case _ =>
    intro st k v rest e he p hp
    have h2 := serializeKey_error_eq k _ e he
    simp [serializeMapElts, he] at hp
    simp [← hp, h2, Err.offset, Err.line, Err.column]
  case _ =>
    intro st k v rest st2 hk e hv ih p hp
    simp [serializeMapElts, hk, hv] at hp
    exact hp ▸ ih e hv
  case _ =>
    intro st k v rest st2 hk st3 hv ih1 ih2 p hp
    simp [serializeMapElts, hk, hv] at hp
    exact ih2 p hp
  case _ => intro st p hp; simp [serializeSeqElts] at hp
  case _ =>
    intro st v rest e he ih p hp
    simp [serializeSeqElts, he] at hp
    exact hp ▸ ih e he
  case _ =>
    intro st v rest st2 hok ih1 ih2 p hp
    simp [serializeSeqElts, hok] at hp
    exact ih2 p hp

/-- Balance bookkeeping for all three serializer layers: a successful run
adds as many container-open punctuation bytes to the counters as
container-close ones. -/
theorem balance_aux (m : Mode) (v : Value) (st : SerState) :
    ∀ st2, serialize m v st = .ok st2 →
      st2.opens + st.closes = st2.closes + st.opens := by
  refine serialize.induct m
    (fun v st => ∀ st2, serialize m v st = .ok st2 →
      st2.opens + st.closes = st2.closes + st.opens)
    (fun kvs st => ∀ st2, serializeMapElts m kvs st = .ok st2 →
      st2.opens + st.closes = st2.closes + st.opens)
    (fun vs st => ∀ st2, serializeSeqElts m vs st = .ok st2 →
      st2.opens + st.closes = st2.closes + st.opens)
    ?_ ?_ ?_ ?_ ?_ ?_ ?_ ?_ ?_ ?_ ?_ ?_ ?_ ?_ ?_ ?_ ?_ ?_ ?_ ?_ v st
  case _ => intro st b st2 h; simp [serialize] at h; simp [← h]; omega
  case _ => intro st n st2 h; simp [serialize] at h; simp [← h]; omega
  case _ => intro st n st2 h; simp [serialize] at h; simp [← h]; omega
  case _ => intro st f st2 h; simp [serialize] at h; simp [← h]; omega
  case _ => intro st s st2 h; simp [serialize] at h; simp [← h]; omega
  case _ => intro st st2 h; simp [serialize] at h
  case _ => intro st w ih st2 h; simp [serialize] at h; exact ih st2 h
  case _ => intro st st2 h; simp [serialize] at h; simp [← h]; omega
  case _ =>
    intro st v0 rest e he ih st3 h
    simp [serialize, he] at h
  case _ =>
    intro st v0 rest st2 hok ih st3 h
    simp [serialize, hok] at h
    have hb := ih st2 hok
    obtain ⟨so, sc, -, -⟩ := startCompound_fields m st 0x5B
    obtain ⟨eo, ec, -, -⟩ := endCompound_fields m st2 0x5D
    simp [so, sc] at hb
    simp [← h, eo, ec]
    omega
  case _ => intro st st2 h; simp [serialize] at h; simp [← h]; omega
  case _ =>
    intro st kv0 rest e he ih st3 h
    simp [serialize, he] at h
  case _ =>
    intro st kv0 rest st2 hok ih st3 h
    simp [serialize, hok] at h
    have hb := ih st2 hok
    obtain ⟨so, sc, -, -⟩ := startCompound_fields m st 0x7B
    obtain ⟨eo, ec, -, -⟩ := endCompound_fields m st2 0x7D
    simp [so, sc] at hb
    simp [← h, eo, ec]
    omega
  case _ => intro st st2 h; simp [serializeMapElts] at h; simp [← h]; omega
  case _ =>
    intro st k v rest e he st2 h
    simp [serializeMapElts, he] at h
  case _ =>
    intro st k v rest st2 hk e hv ih st3 h
    simp [serializeMapElts, hk, hv] at h
  case _ =>
    intro st k v rest st2 hk st21 hv ih1 ih2 stF h
    simp [serializeMapElts, hk, hv] at h
    have hb2 := ih2 stF h
    have hbv := ih1 st21 hv
    obtain ⟨s, -, hk2⟩ := serializeKey_ok_eq k _ st2 hk
    obtain ⟨i1, i2, -⟩ := itemSeparator_fields m st st.first
    obtain ⟨kk1, kk2⟩ := keySeparator_fields m st2
    have e1 : st2.opens = st.opens := by rw [hk2]; simpa using i1
    have e2 : st2.closes = st.closes := by rw [hk2]; simpa using i2
    simp at hb2
    omega
  case _ => intro st st2 h; simp [serializeSeqElts] at h; simp [← h]; omega
  case _ =>
    intro st v rest e he ih st2 h
    simp [serializeSeqElts, he] at h
  case _ =>
    intro st v rest st2 hok ih1 ih2 stF h
    simp [serializeSeqElts, hok] at h
    have hb2 := ih2 stF h
    have hbv := ih1 st2 hok
    obtain ⟨i1, i2, -⟩ := itemSeparator_fields m st st.first
    simp at hb2
    omega

/-- A run over a value holding the absent value in value position never
succeeds: some error is produced, at every starting state and in both
modes. -/
theorem absent_fails_aux (m : Mode) (v : Value) (st : SerState) :
    containsAbsentValue v = true → ∃ p, serialize m v st = .error p := by
  refine serialize.induct m
    (fun v st => containsAbsentValue v = true → ∃ p, serialize m v st = .error p)
    (fun kvs st => containsAbsentKVs kvs = true → ∃ p, serializeMapElts m kvs st = .error p)
    (fun vs st => containsAbsentList vs = true → ∃ p, serializeSeqElts m vs st = .error p)
    ?_ ?_ ?_ ?_ ?_ ?_ ?_ ?_ ?_ ?_ ?_ ?_ ?_ ?_ ?_ ?_ ?_ ?_ ?_ ?_ v st
  case _ => intro st b h; simp [containsAbsentValue] at h
  case _ => intro st n h; simp [containsAbsentValue] at h
  case _ => intro st n h; simp [containsAbsentValue] at h
  case _ => intro st f h; simp [containsAbsentValue] at h
  case _ => intro st s h; simp [containsAbsentValue] at h
  case _ =>
    intro st h
    exact ⟨(st, .syntaxError .unrepresentableValue 0 0 0), by simp [serialize]⟩
  case _ =>
    intro st w ih h
    simp [containsAbsentValue] at h
    obtain ⟨p, hp⟩ := ih h
    exact ⟨p, by simp [serialize]; exact hp⟩
  case _ => intro st h; simp [containsAbsentValue, containsAbsentList] at h
  case _ =>
    intro st v0 rest e he ih h
    exact ⟨e, by simp [serialize, he]⟩
  case _ =>
    intro st v0 rest st2 hok ih h
    simp [containsAbsentValue] at h
    obtain ⟨p, hp⟩ := ih h
    rw [hok] at hp
    exact absurd hp (by simp)
  case _ => intro st h; simp [containsAbsentValue, containsAbsentKVs] at h
  case _ =>
    intro st kv0 rest e he ih h
    exact ⟨e, by simp [serialize, he]⟩
  case _ =>
    intro st kv0 rest st2 hok ih h
    simp [containsAbsentValue] at h
    obtain ⟨p, hp⟩ := ih h
    rw [hok] at hp
    exact absurd hp (by simp)
  case _ => intro st h; simp [containsAbsentKVs] at h
  case _ =>
    intro st k v rest e he h
    exact ⟨e, by simp [serializeMapElts, he]⟩
  case _ =>
    intro st k v rest st2 hk e hv ih1 h
    exact ⟨e, by simp [serializeMapElts, hk, hv]⟩
  case _ =>
    intro st k v rest st2 hk st21 hv ih1 ih2 h
    simp [containsAbsentKVs] at h
    rcases h with h | h
    · obtain ⟨p, hp⟩ := ih1 h
      rw [hv] at hp
      exact absurd hp (by simp)
    · obtain ⟨p, hp⟩ := ih2 h
      exact ⟨p, by simp [serializeMapElts, hk, hv]; exact hp⟩
  case _ => intro st h; simp [containsAbsentList] at h
  case _ =>
    intro st v rest e he ih h
    exact ⟨e, by simp [serializeSeqElts, he]⟩
  case _ =>
    intro st v rest st2 hok ih1 ih2 h
    simp [containsAbsentList] at h
    rcases h with h | h
    · obtain ⟨p, hp⟩ := ih1 h
      rw [hok] at hp
      exact absurd hp (by simp)
    · obtain ⟨p, hp⟩ := ih2 h
      exact ⟨p, by simp [serializeSeqElts, hok]; exact hp⟩

/-- When every reachable mapping key is a string, the only error any layer
can produce is the unrepresentable-value error with zero offset, line and
column. -/
theorem stringkeys_code_aux (m : Mode) (v : Value) (st : SerState) :
    allStringKeys v = true → ∀ p : SerState × Err, serialize m v st = .error p →
      p.2 = .syntaxError .unrepresentableValue 0 0 0 := by
  refine serialize.induct m
    (fun v st => allStringKeys v = true → ∀ p : SerState × Err, serialize m v st = .error p →
      p.2 = .syntaxError .unrepresentableValue 0 0 0)
    (fun kvs st => allStringKeysKVs kvs = true → ∀ p : SerState × Err, serializeMapElts m kvs st = .error p →
      p.2 = .syntaxError .unrepresentableValue 0 0 0)
    (fun vs st => allStringKeysList vs = true → ∀ p : SerState × Err, serializeSeqElts m vs st = .error p →
      p.2 = .syntaxError .unrepresentableValue 0 0 0)
    ?_ ?_ ?_ ?_ ?_ ?_ ?_ ?_ ?_ ?_ ?_ ?_ ?_ ?_ ?_ ?_ ?_ ?_ ?_ ?_ v st
  case _ => intro st b h p hp; simp [serialize] at hp
  case _ => intro st n h p hp; simp [serialize] at hp
  case _ => intro st n h p hp; simp [serialize] at hp
  case _ => intro st f h p hp; simp [serialize] at hp
  case _ => intro st s h p hp; simp [serialize] at hp
  case _ =>
    intro st h p hp
    simp [serialize] at hp
    simp [← hp]
  case _ =>
    intro st w ih h p hp
    simp [allStringKeys] at h
    simp [serialize] at hp
    exact ih h p hp
  case _ => intro st h p hp; simp [serialize] at hp
  case _ =>
    intro st v0 rest e he ih h p hp
    simp [allStringKeys] at h
    simp [serialize, he] at hp
    exact hp ▸ ih h e he
  case _ =>
    intro st v0 rest st2 hok ih h p hp
    simp [serialize, hok] at hp
  case _ => intro st h p hp; simp [serialize] at hp
  case _ =>
    intro st kv0 rest e he ih h p hp
    simp [allStringKeys] at h
    simp [serialize, he] at hp
    exact hp ▸ ih h e he
  case _ =>
    intro st kv0 rest st2 hok ih h p hp
    simp [serialize, hok] at hp
  case _ => intro st h p hp; simp [serializeMapElts] at hp
  case _ =>
    intro st k v rest e he h p hp
    simp [allStringKeysKVs] at h
    obtain ⟨hk, -, -⟩ := h
    cases k <;> simp [Value.isStr] at hk
    simp [serializeKey] at he
  case _ =>
    intro st k v rest st2 hk e hv ih1 h p hp
    simp [allStringKeysKVs] at h
    obtain ⟨-, hv2, -⟩ := h
    simp [serializeMapElts, hk, hv] at hp
    exact hp ▸ ih1 hv2 e hv
  case _ =>
    intro st k v rest st2 hk st21 hv ih1 ih2 h p hp
    simp [allStringKeysKVs] at h
    obtain ⟨-, -, hr⟩ := h
    simp [serializeMapElts, hk, hv] at hp
    exact ih2 hr p hp
  case _ => intro st h p hp; simp [serializeSeqElts] at hp
  case _ =>
    intro st v rest e he ih h p hp
    simp [allStringKeysList] at h
    simp [serializeSeqElts, he] at hp
    exact hp ▸ ih h.1 e he
  case _ =>
    intro st v rest st2 hok ih1 ih2 h p hp
    simp [allStringKeysList] at h
    simp [serializeSeqElts, hok] at hp
    exact ih2 h.2 p hp

/-- C1: the escaping table of visit_str, evaluated at the boundary bytes.
The named escapes and the pass-through arm behave as the claim states, and
bytes 0x00 to 0x0E get the zero-padded two-digit form, as do 0x10 to 0x1F
naturally; but byte 0x0F falls into the unpadded arm, because the guard of
the padded arm reads 0xF where the claim (and the two-digit escape form of
the format) call for 0x10, so 0x0F is written as a backslash followed by
the single digit F instead of the zero-padded two-digit form. -/
theorem c1_escape_hex_boundary :
    escapeByte 0x09 = [0x5C, 0x74] ∧
    escapeByte 0x0A = [0x5C, 0x6E] ∧
    escapeByte 0x0D = [0x5C, 0x72] ∧
    escapeByte 0x22 = [0x5C, 0x22] ∧
    escapeByte 0x5C = [0x5C, 0x5C] ∧
    escapeByte 0x00 = [0x5C, 0x30, 0x30] ∧
    escapeByte 0x0E = [0x5C, 0x30, 0x45] ∧
    escapeByte 0x10 = [0x5C, 0x31, 0x30] ∧
    escapeByte 0x1F = [0x5C, 0x31, 0x46] ∧
    escapeByte 0x41 = [0x41] ∧
    escapeByte 0x0F = [0x5C, 0x46] ∧
    escapeByte 0x0F ≠ [0x5C, 0x30, 0x46] ∧
    serialize .compact (.str [0x0F]) initState =
      .ok { initState with out := [0x22, 0x5C, 0x46, 0x22] } := by
  refine ⟨by decide, by decide, by decide, by decide, by decide, by decide,
          by decide, by decide, by decide, by decide, by decide, by decide, ?_⟩
  simp [serialize, escapeBytes, escapeByte, hexUpperByte, hexDigitChar, initState]

/-- C2: an empty sequence encodes to exactly the two bracket bytes and an
empty mapping to exactly the two brace bytes, in both modes, with no
newline or indentation bytes; the structure-update form of the result shows
that the indentation depth, the first flag and both formatter hook counters
are untouched, so the begin and end hooks never ran. -/
theorem c2_empty_containers (m : Mode) (st : SerState) :
    serialize m (.seq []) st =
      .ok { st with out := st.out ++ [0x5B, 0x5D],
                    opens := st.opens + 1, closes := st.closes + 1 } ∧
    serialize m (.map []) st =
      .ok { st with out := st.out ++ [0x7B, 0x7D],
                    opens := st.opens + 1, closes := st.closes + 1 } ∧
    toVec (.seq []) = .ok [0x5B, 0x5D] ∧
    toVecPretty (.seq []) = .ok [0x5B, 0x5D] ∧
    toVec (.map []) = .ok [0x7B, 0x7D] ∧
    toVecPretty (.map []) = .ok [0x7B, 0x7D] := by
  refine ⟨by simp [serialize], by simp [serialize], ?_, ?_, ?_, ?_⟩ <;>
    simp [toVec, toVecPretty, serialize, initState]

/-- C3: a mapping entry whose key is not a string fails with the invalid-key
syntax error.  The key serializer itself fails with the sink untouched, and
the whole entry fails right after the item separator: the error state is
exactly the state the separator produced, so no key text, no key-value
separator and no value text of the entry ever reach the sink. -/
theorem c3_nonstring_key_rejected (m : Mode) (k v : Value)
    (rest : List (Value × Value)) (st : SerState) (h : k.isStr = false) :
    serializeKey k st = .error (st, .syntaxError .invalidKey 0 0 0) ∧
    serializeMapElts m ((k, v) :: rest) st =
      .error (itemSeparator m st st.first, .syntaxError .invalidKey 0 0 0) := by
  cases k <;> simp [Value.isStr] at h <;>
    simp [serializeKey, serializeMapElts]

/-- C3 witness: a boolean key, one concrete entry, compact mode. -/
theorem c3_nonstring_key_rejected_witness :
    serializeKey (.bool true) initState =
      .error (initState, .syntaxError .invalidKey 0 0 0) ∧
    serializeMapElts .compact [(Value.bool true, Value.str [0x76])] initState =
      .error (itemSeparator .compact initState initState.first,
              .syntaxError .invalidKey 0 0 0) :=
  c3_nonstring_key_rejected .compact (.bool true) (.str [0x76]) [] initState (by decide)

/-- C4 counterexample: this mapping holds the absent value in value
position, yet encoding it fails with the invalid-key error, not the
unrepresentable-value error, because its non-string key is rejected before
the absent value is ever reached. -/
theorem c4_counterexample :
    containsAbsentValue (.map [(.bool true, .absent)]) = true ∧
    toVec (.map [(.bool true, .absent)]) =
      .error (.syntaxError .invalidKey 0 0 0) ∧
    ErrorCode.invalidKey ≠ ErrorCode.unrepresentableValue := by
  refine ⟨?_, ?_, by decide⟩
  · simp [containsAbsentValue, containsAbsentKVs]
  · simp [toVec, serialize, serializeMapElts, serializeKey, itemSeparator,
          startCompound, initState]

/-- C4 amended: a value graph holding the absent value in value position
never encodes successfully; the absent value itself is rejected with the
unrepresentable-value error and with the sink untouched, so no null or none
literal is ever written; and when every mapping key of the graph is a
string, the error of the whole encode is the unrepresentable-value one. -/
theorem c4_absent_unrepresentable (m : Mode) (v : Value) (st : SerState)
    (h : containsAbsentValue v = true) :
    (∃ p, serialize m v st = .error p) ∧
    serialize m .absent st =
      .error (st, .syntaxError .unrepresentableValue 0 0 0) ∧
    (allStringKeys v = true →
      ∃ st2, serialize m v st =
        .error (st2, .syntaxError .unrepresentableValue 0 0 0)) := by
  refine ⟨absent_fails_aux m v st h, by simp [serialize], fun hk => ?_⟩
  obtain ⟨p, hp⟩ := absent_fails_aux m v st h
  have hc := stringkeys_code_aux m v st hk p hp
  rcases p with ⟨st2, e⟩
  exact ⟨st2, by rw [hp]; exact congrArg Except.error (congrArg (Prod.mk st2) hc)⟩

/-- C4 witness: a one-element sequence holding the absent value, compact
mode, fresh state. -/
theorem c4_absent_unrepresentable_witness :
    (∃ p, serialize .compact (.seq [.absent]) initState = .error p) ∧
    serialize .compact .absent initState =
      .error (initState, .syntaxError .unrepresentableValue 0 0 0) ∧
    (allStringKeys (.seq [.absent]) = true →
      ∃ st2, serialize .compact (.seq [.absent]) initState =
        .error (st2, .syntaxError .unrepresentableValue 0 0 0)) :=
  c4_absent_unrepresentable .compact (.seq [.absent]) initState
    (by simp [containsAbsentValue, containsAbsentList])

/-- C5: a successful run adds as many container-open punctuation bytes as
container-close ones to the counters, and an encode that starts from the
fresh state ends with the two counters equal; the counters are bumped at
the formatter begin and end hooks and, both at once, on the empty-container
fast path. -/
theorem c5_punctuation_balanced (m : Mode) (v : Value) (st st2 : SerState)
    (h : serialize m v st = .ok st2) :
    st2.opens + st.closes = st2.closes + st.opens ∧
    (st = initState → st2.opens = st2.closes) := by
  have hb := balance_aux m v st st2 h
  refine ⟨hb, fun hi => ?_⟩
  subst hi
  simpa [initState] using hb

/-- C5 witness: a nested sequence whose inner container takes the empty
fast path, compact mode. -/
theorem c5_punctuation_balanced_witness :
    ({ initState with out := [0x5B, 0x5B, 0x5D, 0x5D], first := false,
                      opens := 2, closes := 2,
                      hookStarts := 1, hookEnds := 1 } : SerState).opens
        + initState.closes =
      ({ initState with out := [0x5B, 0x5B, 0x5D, 0x5D], first := false,
                        opens := 2, closes := 2,
                        hookStarts := 1, hookEnds := 1 } : SerState).closes
        + initState.opens ∧
    (initState = initState →
      ({ initState with out := [0x5B, 0x5B, 0x5D, 0x5D], first := false,
                        opens := 2, closes := 2,
                        hookStarts := 1, hookEnds := 1 } : SerState).opens =
        ({ initState with out := [0x5B, 0x5B, 0x5D, 0x5D], first := false,
                          opens := 2, closes := 2,
                          hookStarts := 1, hookEnds := 1 } : SerState).closes) :=
  c5_punctuation_balanced .compact (.seq [.seq []]) initState _
    (by simp [serialize, serializeSeqElts, itemSeparator, startCompound,
              endCompound, initState])

/-- C6: the not-a-number value renders as exactly NaN and positive infinity
as exactly inf, with no dot and no dot-zero suffix; and every finite float
renders with exactly one dot: the default text is kept when it holds a dot
and gets a dot and a zero appended when it holds none.  The finite case is
abstracted by the byte text of the default rendering of the language, whose
shortest round-trippable decimal holds at most one dot, which is the sole
hypothesis. -/
theorem c6_float_text (s : List Nat) (h : s.count 0x2E ≤ 1) :
    renderF64 .nan = [0x4E, 0x61, 0x4E] ∧
    renderF64 (.inf false) = [0x69, 0x6E, 0x66] ∧
    (renderF64 (.finite s)).count 0x2E = 1 ∧
    (0x2E ∉ s → renderF64 (.finite s) = s ++ [0x2E, 0x30]) ∧
    (0x2E ∈ s → renderF64 (.finite s) = s) := by
  refine ⟨rfl, rfl, ?_, fun hn => by simp [renderF64, hn],
          fun hm => by simp [renderF64, hm]⟩
  by_cases hm : (0x2E : Nat) ∈ s
  · have hpos : 0 < s.count 0x2E := List.count_pos_iff.mpr hm
    simp [renderF64, hm]
    omega
  · have hz : s.count 0x2E = 0 := List.count_eq_zero.mpr hm
    simp [renderF64, hm, List.count_append, hz]

/-- C6 witness: the one-byte default text 1, which holds no dot and renders
as 1.0 with exactly one dot. -/
theorem c6_float_text_witness :
    renderF64 .nan = [0x4E, 0x61, 0x4E] ∧
    renderF64 (.inf false) = [0x69, 0x6E, 0x66] ∧
    (renderF64 (.finite [0x31])).count 0x2E = 1 ∧
    (0x2E ∉ [0x31] → renderF64 (.finite [0x31]) = [0x31] ++ [0x2E, 0x30]) ∧
    (0x2E ∈ [0x31] → renderF64 (.finite [0x31]) = [0x31]) :=
  c6_float_text [0x31] (by decide)

/-- C7: the item separator is the identity on the state for the first item
in both modes; afterwards compact appends exactly one comma and pretty
appends a newline and the current indentation, a run of bytes that holds no
comma; the key-value separator appends a colon in compact mode and a colon
and a space in pretty mode. -/
theorem c7_separators (m : Mode) (st : SerState) :
    itemSeparator m st true = st ∧
    itemSeparator .compact st false = { st with out := st.out ++ [0x2C] } ∧
    itemSeparator .pretty st false =
      { st with out := st.out ++ [0x0A] ++ indentBytes st.indent } ∧
    0x2C ∉ (0x0A :: indentBytes st.indent) ∧
    keySeparator .compact st = { st with out := st.out ++ [0x3A] } ∧
    keySeparator .pretty st = { st with out := st.out ++ [0x3A, 0x20] } := by
  refine ⟨by cases m <;> simp [itemSeparator], by simp [itemSeparator],
          by simp [itemSeparator], ?_, by simp [keySeparator],
          by simp [keySeparator]⟩
  simp [indentBytes, List.mem_replicate]

/-- C8: a string mapping key is written to the sink verbatim as its raw
bytes, with no quotes, no escaping and no validation of its content; the
key serializer never consults the formatter, so the write is the same in
both modes. -/
theorem c8_bare_key_verbatim (s : List Nat) (st : SerState) :
    serializeKey (.str s) st = .ok { st with out := st.out ++ s } := rfl

/-- C9: every error the serializer can produce carries offset, line and
column all equal to zero. -/
theorem c9_error_locations_zero (m : Mode) (v : Value) (st : SerState)
    (p : SerState × Err) (h : serialize m v st = .error p) :
    p.2.offset = 0 ∧ p.2.line = 0 ∧ p.2.column = 0 :=
  error_fields_aux m v st p h

/-- C9 witness: the error of encoding the absent value. -/
theorem c9_error_locations_zero_witness :
    ((initState, Err.syntaxError .unrepresentableValue 0 0 0) :
        SerState × Err).2.offset = 0 ∧
    ((initState, Err.syntaxError .unrepresentableValue 0 0 0) :
        SerState × Err).2.line = 0 ∧
    ((initState, Err.syntaxError .unrepresentableValue 0 0 0) :
        SerState × Err).2.column = 0 :=
  c9_error_locations_zero .compact .absent initState _ (by simp [serialize])

/-- C10: the optional wrapper used as a mapping key fails with the
invalid-key error whatever it wraps, a string included, while the same
wrapper in value position is transparent: the serializer delegates to the
wrapped value unchanged. -/
theorem c10_optional_wrapper (m : Mode) (w : Value) (st : SerState) :
    serializeKey (.opt w) st = .error (st, .syntaxError .invalidKey 0 0 0) ∧
    serialize m (.opt w) st = serialize m w st :=
  ⟨rfl, by simp [serialize]⟩

end HiPack
